import Mathlib

/-!
Shallow embedding of `src/App.svelte` (ipa-extension-remover).

The app loads a zip archive ("IPA"), resolves metadata (Info.plist) and an
icon, discovers removable extensions (".appex" directories), and rebuilds a
filtered archive.  Strings are modelled via their character lists; the
JavaScript regexes used by the source are modelled as executable matchers on
character lists with the same (unanchored, backtracking-existential)
semantics.  External collaborators (plist parser, cgbi decoder) are taken as
function parameters.  Asynchronous abort is modelled by an explicit schedule
saying before which per-entry check point the abort listener has run.
-/

/-- `strStarts p s` : `p` is a prefix of `s` (JS `String.prototype.startsWith`
on code points, restricted to the character lists we use). -/
def strStarts : List Char → List Char → Bool
  | [], _ => true
  | _ :: _, [] => false
  | p :: ps, c :: cs => p == c && strStarts ps cs

/-- Unanchored regex test: scan every start position of `s` with matcher `p`. -/
def testScan (p : List Char → Bool) : List Char → Bool
  | [] => p []
  | c :: rest => p (c :: rest) || testScan p rest

/-- Matcher for `[^/]+` followed by the literal `sfx` followed by continuation
`k` (with full backtracking over the length of the `[^/]+` block). -/
def segSuffix (sfx : List Char) (k : List Char → Bool) : List Char → Bool
  | [] => false
  | c :: rest =>
    if c = '/' then false
    else (strStarts sfx rest && k (rest.drop sfx.length)) || segSuffix sfx k rest

/-- Matcher for `\.[^/]+` (a dot followed by at least one non-slash char). -/
def dotExt : List Char → Bool
  | '.' :: c :: _ => c != '/'
  | _ => false

/-- Matcher for `\d+x` followed by `\.[^/]+` (with backtracking over `\d+`). -/
def digitsThenX : List Char → Bool
  | [] => false
  | c :: rest =>
    if c.isDigit then (strStarts ['x'] rest && dotExt (rest.drop 1)) || digitsThenX rest
    else false

/-- Matcher for the optional icon scale suffix and extension:
`(@\d+x)?\.[^/]+`. -/
def iconTail (r : List Char) : Bool :=
  dotExt r ||
    (match r with
     | '@' :: rest => digitsThenX rest
     | _ => false)

/-- `metadataRegex.test`, from
`/((:?\/)?Payload\/[^/]+\.app\/)Info\.plist/` : since the test is unanchored,
the optional leading group is irrelevant and the test holds iff some position
starts `Payload/` `[^/]+` `.app/` `Info.plist`. -/
def metadataTest (s : String) : Bool :=
  testScan
    (fun t =>
      strStarts "Payload/".data t &&
        segSuffix ".app/".data (fun r => strStarts "Info.plist".data r) (t.drop 8))
    s.data

/-- `appIconRegex(name).test`, from
`Payload\/[^/]+\.app\/NAME(@\d+x)?\.[^/]+` with `NAME` spliced in literally
(the model treats `NAME` as a literal, faithful for names without regex
metacharacters, which is what the instantiations use). -/
def iconTest (name : String) (s : String) : Bool :=
  testScan
    (fun t =>
      strStarts "Payload/".data t &&
        segSuffix ".app/".data
          (fun r => strStarts name.data r && iconTail (r.drop name.data.length))
          (t.drop 8))
    s.data

/-- Path pattern described by the specification for sub-component discovery
(structure of `extensionRegex`, `/Payload\/[^/]+\.app\/PlugIns\/([^/]+)\.appex\//`):
inside the main app directory, inside `PlugIns`, segment ending in `.appex`.
Modelled from the spec side for comparison with the code's discovery filter. -/
def specExtPathMatch (s : String) : Bool :=
  testScan
    (fun t =>
      strStarts "Payload/".data t &&
        segSuffix ".app/".data
          (fun r =>
            strStarts "PlugIns/".data r &&
              segSuffix ".appex/".data (fun _ => true) (r.drop 8))
          (t.drop 8))
    s.data

/-- JS `a.startsWith(b)`. -/
def jsStartsWith (s pre : String) : Bool :=
  strStarts pre.data s.data

/-- JS `a.endsWith(b)`. -/
def jsEndsWith (s sfx : String) : Bool :=
  strStarts sfx.data.reverse s.data.reverse

/-- JS `s.split("/")` on character lists (empty pieces kept). -/
def splitSlash : List Char → List (List Char)
  | [] => [[]]
  | c :: rest =>
    let r := splitSlash rest
    if c = '/' then [] :: r
    else
      match r with
      | [] => [[c]]
      | h :: t => (c :: h) :: t

/-- JS `arr.at(-2)`: element at index `length - 2`, `undefined` when the list
has fewer than two elements. -/
def atMinus2 {α : Type} (l : List α) : Option α :=
  if 2 ≤ l.length then l.get? (l.length - 2) else none

/-- The source's `ellipsis` helper on character lists:
`text.length > max` yields `text.slice(0, max - 3) + "..."`. -/
def ellipsisL (text : List Char) (max : Nat) : List Char :=
  if max < text.length then text.take (max - 3) ++ "...".data else text

/-- `entry.filename.split("/").at(-2) || ""` (directory display label). -/
def dirLabel (s : String) : List Char :=
  (atMinus2 (splitSlash s.data)).getD []

/-- `entry.filename.split("/").at(-1) || ""` (file display label). -/
def fileLabel (s : String) : List Char :=
  ((splitSlash s.data).getLast?).getD []

instance : DecidableEq (Except String (List Nat)) := fun a b =>
  match a, b with
  | Except.ok x, Except.ok y =>
    if h : x = y then isTrue (by rw [h]) else isFalse (by intro hc; cases hc; exact h rfl)
  | Except.error x, Except.error y =>
    if h : x = y then isTrue (by rw [h]) else isFalse (by intro hc; cases hc; exact h rfl)
  | Except.ok _, Except.error _ => isFalse (by intro hc; cases hc)
  | Except.error _, Except.ok _ => isFalse (by intro hc; cases hc)

/-- One archive entry as exposed by the zip codec: a path, a directory flag,
and an optional content accessor (`getData`), which when invoked either
yields the entry's bytes or rejects with an error message. -/
structure Entry where
  filename : String
  directory : Bool
  getData : Option (Except String (List Nat))
deriving DecidableEq

/-- Extension discovery (`loadIPA`, lines 59–61):
`entries.filter((entry) => entry.directory && entry.filename.endsWith(".appex/"))`. -/
def discoverExtensions (entries : List Entry) : List Entry :=
  entries.filter (fun e => e.directory && jsEndsWith e.filename ".appex/")

/-- Initial selection (`loadIPA`, lines 62–64): every discovered extension
filename mapped to `true`. -/
def initialSelection (exts : List Entry) : List (String × Bool) :=
  exts.map (fun e => (e.filename, true))

/-- JS object lookup `extensionsToKeep[key]` on the association list model. -/
def lookupSel (sel : List (String × Bool)) (key : String) : Option Bool :=
  (sel.find? (fun p => p.1 == key)).map (fun p => p.2)

/-- A selection over the discovered extensions given by a keep function
(the shape `extensionsToKeep` has in the app after user toggles). -/
def selectionOf (entries : List Entry) (keep : String → Bool) : List (String × Bool) :=
  (discoverExtensions entries).map (fun e => (e.filename, keep e.filename))

/-- A parsed property-list value (`@plist/common` `Value`). -/
inductive PlistValue where
  | str : String → PlistValue
  | int : Int → PlistValue
  | dict : List (String × PlistValue) → PlistValue
  | arr : List PlistValue → PlistValue

/-- Dictionary key lookup (JS property access on a plain object). -/
def lookupDict (d : List (String × PlistValue)) (key : String) : Option PlistValue :=
  (d.find? (fun p => p.1 == key)).map (fun p => p.2)

/-- JS property access `v.key` on a defined value: dictionaries look the key
up, other values have no such property (`undefined`). -/
def jsGetV (v : PlistValue) (key : String) : Option PlistValue :=
  match v with
  | PlistValue.dict d => lookupDict d key
  | _ => none

/-- JS property access `o.key` where `o` may be `undefined`: throws a
`TypeError` on `undefined`, otherwise as `jsGetV`. -/
def jsGetO (o : Option PlistValue) (key : String) : Except String (Option PlistValue) :=
  match o with
  | none => Except.error "TypeError"
  | some v => Except.ok (jsGetV v key)

/-- JS truthiness of a possibly-undefined plist value. -/
def truthy (o : Option PlistValue) : Bool :=
  match o with
  | none => false
  | some (PlistValue.str s) => s != ""
  | some (PlistValue.int n) => n != 0
  | some (PlistValue.dict _) => true
  | some (PlistValue.arr _) => true

/-- JS indexing `v[0]` where `v` may be `undefined`: throws on `undefined`;
arrays yield their head, strings their first character, dictionaries the
property "0", numbers `undefined`. -/
def jsIndex0 (o : Option PlistValue) : Except String (Option PlistValue) :=
  match o with
  | none => Except.error "TypeError"
  | some (PlistValue.arr l) => Except.ok l.head?
  | some (PlistValue.str s) =>
    Except.ok (match s.data with
      | [] => none
      | c :: _ => some (PlistValue.str (String.mk [c])))
  | some (PlistValue.dict d) => Except.ok (lookupDict d "0")
  | some (PlistValue.int _) => Except.ok none

/-- JS string coercion as performed by template-literal interpolation. -/
def jsToString (o : Option PlistValue) : String :=
  match o with
  | none => "undefined"
  | some (PlistValue.str s) => s
  | some (PlistValue.int n) => toString n
  | some (PlistValue.dict _) => "[object Object]"
  | some (PlistValue.arr _) => "[object Array]"

/-- `getMetadata` (lines 83–97): find the first entry whose path passes
`metadataRegex.test`; return `null` when there is no match or the entry has no
`getData`; read the bytes (a rejection of `getData` is NOT inside the
`try` and therefore propagates); parse them, converting a parse error to
`null`.  The plist parser is an external collaborator passed as `parse`. -/
def getMetadata (ipa? : Option (List Entry))
    (parse : List Nat → Except String PlistValue) : Except String (Option PlistValue) :=
  match ipa? with
  | none => Except.ok none
  | some entries =>
    match entries.find? (fun e => metadataTest e.filename) with
    | none => Except.ok none
    | some e =>
      match e.getData with
      | none => Except.ok none
      | some (Except.error msg) => Except.error msg
      | some (Except.ok bytes) =>
        match parse bytes with
        | Except.ok v => Except.ok (some v)
        | Except.error _ => Except.ok none

/-- Resolution of the icon base name from metadata (`loadIPA`, lines 66–71):
`metadata?.CFBundleIcons` truthiness gate, then the unchecked property chain
`CFBundlePrimaryIcon` / `CFBundleIconFiles` / `[0]` (each of which throws a
`TypeError` when the previous step yielded `undefined`), then template-literal
coercion of the result into the icon file name. -/
def iconName (metadata : Option PlistValue) : Except String (Option String) :=
  match metadata with
  | none => Except.ok none
  | some m =>
    let icons := jsGetV m "CFBundleIcons"
    if truthy icons then
      match jsGetO icons "CFBundlePrimaryIcon" with
      | Except.error msg => Except.error msg
      | Except.ok primaryIcon =>
        match jsGetO primaryIcon "CFBundleIconFiles" with
        | Except.error msg => Except.error msg
        | Except.ok iconFiles =>
          match jsIndex0 iconFiles with
          | Except.error msg => Except.error msg
          | Except.ok iconFilename => Except.ok (some (jsToString iconFilename))
    else Except.ok none

/-- The icon phase of `loadIPA` (lines 66–80): resolve the icon base name,
find the first entry passing `appIconRegex(name).test`, read its bytes and
decode them with the external `cgbi` decoder.  Neither the `getData` call nor
the decoder call is guarded, so either failure propagates out of `loadIPA`. -/
def loadIcon (metadata : Option PlistValue) (entries : List Entry)
    (decode : List Nat → Except String (List Nat)) : Except String (Option (List Nat)) :=
  match iconName metadata with
  | Except.error msg => Except.error msg
  | Except.ok none => Except.ok none
  | Except.ok (some name) =>
    match entries.find? (fun e => iconTest name e.filename) with
    | none => Except.ok none
    | some e =>
      match e.getData with
      | none => Except.ok none
      | some (Except.error msg) => Except.error msg
      | some (Except.ok bytes) =>
        match decode bytes with
        | Except.error msg => Except.error msg
        | Except.ok png => Except.ok (some png)

/-- The state established by a successful `loadIPA`. -/
structure LoadState where
  extensions : List Entry
  extensionsToKeep : List (String × Bool)
  metadata : Option PlistValue
  appIcon : Option (List Nat)

/-- `loadIPA` (lines 51–81) after the zip entries have been enumerated:
discovery, initial selection, metadata resolution, icon resolution.  An error
escaping `getMetadata` or the icon phase aborts the whole load. -/
def loadIPA (entries : List Entry) (parse : List Nat → Except String PlistValue)
    (decode : List Nat → Except String (List Nat)) : Except String LoadState :=
  let exts := discoverExtensions entries
  let keep := initialSelection exts
  match getMetadata (some entries) parse with
  | Except.error msg => Except.error msg
  | Except.ok md =>
    match loadIcon md entries decode with
    | Except.error msg => Except.error msg
    | Except.ok icon => Except.ok ⟨exts, keep, md, icon⟩

/-- One entry of the rebuilt archive: a path with either a directory
placeholder (`content = none`) or the bytes written for a file. -/
structure OutEntry where
  path : String
  isDir : Bool
  content : Option (List Nat)
deriving DecidableEq

/-- Skip test of the rebuild loop (lines 156–163): the entry's path starts
with one of the removal prefixes. -/
def skipEntry (prefixes : List String) (e : Entry) : Bool :=
  prefixes.any (fun p => jsStartsWith e.filename p)

/-- The entry has a content accessor that would succeed. -/
def hasOkData (e : Entry) : Bool :=
  match e.getData with
  | some (Except.ok _) => true
  | _ => false

/-- The entry has a content accessor that would reject. -/
def hasErrData (e : Entry) : Bool :=
  match e.getData with
  | some (Except.error _) => true
  | _ => false

/-- The loop writes this entry to the output archive: not skipped, and either
a directory or a file whose accessor is present and succeeds. -/
def writesEntry (prefixes : List String) (e : Entry) : Bool :=
  !skipEntry prefixes e && (e.directory || hasOkData e)

/-- The output entry the loop produces for a written entry. -/
def toOut (e : Entry) : OutEntry :=
  ⟨e.filename, e.directory,
    if e.directory then none
    else
      match e.getData with
      | some (Except.ok b) => some b
      | _ => none⟩

/-- The `progressText` assignment made while writing an entry
(lines 165 and 170). -/
def statusMsg (e : Entry) : String :=
  if e.directory then
    "Creating directory " ++ String.mk (ellipsisL (dirLabel e.filename) 15)
  else
    "Adding " ++ String.mk (ellipsisL (fileLabel e.filename) 30)

/-- How the rebuild loop ended: ran through all entries, broke out at an
abort check point, or crashed on a rejecting `getData`. -/
inductive LoopExit where
  | completed
  | abortedExit
  | readErr
deriving DecidableEq

/-- Observable outcome of one pass of the rebuild loop. -/
structure LoopOut where
  written : List OutEntry
  progressedTo : Nat
  events : List Nat
  statusEvents : List String
  exit : LoopExit
deriving DecidableEq

/-- Abort schedule: `abortAt = some k` means the abort listener has run by the
time the check point before entry index `k` is reached (and stays run);
`none` means the signal never fires. -/
def abortedBy (abortAt : Option Nat) (i : Nat) : Bool :=
  match abortAt with
  | none => false
  | some k => decide (k ≤ i)

/-- The per-entry loop of `_saveIPA` (lines 153–176).  `i` is the index of
the next entry (for the abort schedule), `prog` the current `progress` value.
Each iteration: check `aborted`; increment `progress`; skip removed paths;
write a directory placeholder for directories; for files, invoke `getData`
when present and write the bytes (a rejecting `getData` throws inside the
promise executor, so nothing after it runs).  `events` records the values
assigned to `progress`, `statusEvents` the per-entry `progressText` values. -/
def runLoop (prefixes : List String) (abortAt : Option Nat) :
    List Entry → Nat → Nat → LoopOut
  | [], _, prog => ⟨[], prog, [], [], LoopExit.completed⟩
  | e :: rest, i, prog =>
    if abortedBy abortAt i then ⟨[], prog, [], [], LoopExit.abortedExit⟩
    else if skipEntry prefixes e then
      let r := runLoop prefixes abortAt rest (i + 1) (prog + 1)
      ⟨r.written, r.progressedTo, (prog + 1) :: r.events, r.statusEvents, r.exit⟩
    else if e.directory then
      let r := runLoop prefixes abortAt rest (i + 1) (prog + 1)
      ⟨⟨e.filename, true, none⟩ :: r.written, r.progressedTo, (prog + 1) :: r.events,
        statusMsg e :: r.statusEvents, r.exit⟩
    else
      match e.getData with
      | none =>
        let r := runLoop prefixes abortAt rest (i + 1) (prog + 1)
        ⟨r.written, r.progressedTo, (prog + 1) :: r.events, r.statusEvents, r.exit⟩
      | some (Except.error _) => ⟨[], prog + 1, [prog + 1], [statusMsg e], LoopExit.readErr⟩
      | some (Except.ok b) =>
        let r := runLoop prefixes abortAt rest (i + 1) (prog + 1)
        ⟨⟨e.filename, false, some b⟩ :: r.written, r.progressedTo, (prog + 1) :: r.events,
          statusMsg e :: r.statusEvents, r.exit⟩

/-- `Math.round(n * 1.1)` for a natural entry count (half rounds away from
zero), i.e. `(11 * n + 5) / 10` with exact rational arithmetic.  For entry
counts of realistic size the double-precision product `n * 1.1` rounds the
same way, including the tie at `n = 5`. -/
def roundMax (n : Nat) : Nat := (11 * n + 5) / 10

/-- How a `_saveIPA` invocation settled. -/
inductive SaveOutcome where
  | ok
  | abortedErr
  | notLoadedErr
  | readFailure
deriving DecidableEq

/-- What was handed to `saveBlob`: the untouched original file, or the
finalized rebuilt archive. -/
inductive SaveOutput where
  | original
  | rebuilt : List OutEntry → SaveOutput
deriving DecidableEq

/-- Observable behaviour of one `_saveIPA` invocation. -/
structure SaveResult where
  outcome : SaveOutcome
  output : Option SaveOutput
  written : List OutEntry
  writerCreated : Bool
  writerClosed : Bool
  progressEvents : List Nat
  progressMaxEvents : List Nat
  statusEvents : List String
deriving DecidableEq

/-- `_saveIPA` (lines 120–187) as a function of the reactive state it reads:
whether a file is selected, the enumerated entries, the `extensions` list,
the `extensionsToKeep` object, and the abort schedule.

* `progress = 0`; reject `"IPA not loaded"` when no file or no catalog.
* When every selection value is `true`: emit `1 / 1` with `"Done!"` and save
  the original file bytes (no writer is ever created).
* Otherwise compute the removal prefixes, create the writer, set
  `progressMax = Math.round(entries.length * 1.1)`, run the loop, always
  `close()` the writer afterwards (except when a rejecting `getData` crashed
  the executor), and only when not aborted save the rebuilt archive and set
  `progress = progressMax`.
* The abort listener (lines 124–129) contributes `progress = 0`,
  `progressMax = 0` and the `Aborted` rejection at the moment the signal
  fires. -/
def saveIPACore (filesLoaded : Bool) (ipa? : Option (List Entry))
    (extensions : List Entry) (extensionsToKeep : List (String × Bool))
    (abortAt : Option Nat) : SaveResult :=
  match filesLoaded, ipa? with
  | false, _ =>
    ⟨SaveOutcome.notLoadedErr, none, [], false, false, [0], [], []⟩
  | true, none =>
    ⟨SaveOutcome.notLoadedErr, none, [], false, false, [0], [], []⟩
  | true, some entries =>
    if extensionsToKeep.all (fun p => p.2) then
      if abortAt = some 0 then
        ⟨SaveOutcome.abortedErr, none, [], false, false, [0, 0], [0], []⟩
      else
        ⟨SaveOutcome.ok, some SaveOutput.original, [], false, false, [0, 1], [1], ["Done!"]⟩
    else
      let extensionsToRemove :=
        (extensions.filter
            (fun ext => !((lookupSel extensionsToKeep ext.filename).getD false))).map
          (fun ext => ext.filename)
      let maxInit := roundMax entries.length
      let lr := runLoop extensionsToRemove abortAt entries 0 0
      let preStatus := ["Filtering extensions", "Creating new IPA archive"]
      match lr.exit with
      | LoopExit.readErr =>
        ⟨SaveOutcome.readFailure, none, lr.written, true, false,
          0 :: lr.events, [maxInit], preStatus ++ lr.statusEvents⟩
      | LoopExit.abortedExit =>
        ⟨SaveOutcome.abortedErr, none, lr.written, true, true,
          (0 :: lr.events) ++ [0], [maxInit, 0], preStatus ++ lr.statusEvents⟩
      | LoopExit.completed =>
        if abortedBy abortAt entries.length then
          ⟨SaveOutcome.abortedErr, none, lr.written, true, true,
            (0 :: lr.events) ++ [0], [maxInit, 0], preStatus ++ lr.statusEvents⟩
        else
          ⟨SaveOutcome.ok, some (SaveOutput.rebuilt lr.written), lr.written, true, true,
            (0 :: lr.events) ++ [maxInit], [maxInit],
            preStatus ++ lr.statusEvents ++ ["Finalizing archive", "Saving archive", "Done!"]⟩

/-- The reactive guard state read by `saveIPA` (lines 105–118). -/
structure UIState where
  abortCtrl : Bool
  saving : Bool
deriving DecidableEq

/-- The entry guard of `saveIPA`: `if (abortController || saving) return;`.
Returns the new state and whether a rebuild job was started. -/
def saveIPAGuard (s : UIState) : UIState × Bool :=
  if s.abortCtrl || s.saving then (s, false)
  else (⟨true, true⟩, true)

/-- Sample: the main app directory entry. -/
def entAppDir : Entry := ⟨"Payload/App.app/", true, none⟩

/-- Sample: the descriptor file entry. -/
def entInfo : Entry := ⟨"Payload/App.app/Info.plist", false, some (Except.ok [1, 2])⟩

/-- Sample: an extension bundle directory entry. -/
def entExtDir : Entry := ⟨"Payload/App.app/PlugIns/Ext.appex/", true, none⟩

/-- Sample: a file nested inside the extension bundle. -/
def entExtFile : Entry :=
  ⟨"Payload/App.app/PlugIns/Ext.appex/Ext", false, some (Except.ok [3])⟩

/-- Sample four-entry catalog with one extension. -/
def sampleIPA : List Entry := [entAppDir, entInfo, entExtDir, entExtFile]

/-- Sample selection function removing every extension. -/
def keepNone : String → Bool := fun _ => false

/-- The output entries of a full uninterrupted pass over `entries`. -/
def writtenOf (prefixes : List String) (entries : List Entry) : List OutEntry :=
  (entries.filter (writesEntry prefixes)).map toOut

/-- The per-entry status texts of a full uninterrupted pass over `entries`. -/
def statusOf (prefixes : List String) (entries : List Entry) : List String :=
  (entries.filter (writesEntry prefixes)).map statusMsg

/-- No non-skipped entry has a rejecting content accessor. -/
def noErrData (prefixes : List String) (entries : List Entry) : Bool :=
  entries.all (fun e => skipEntry prefixes e || e.directory || !hasErrData e)

/-- The removal prefixes computed by `_saveIPA` for a selection given by a
keep function: filenames of discovered extensions with `keep = false`. -/
def removePrefs (entries : List Entry) (keep : String → Bool) : List String :=
  ((discoverExtensions entries).filter (fun e => !keep e.filename)).map
    (fun e => e.filename)

/-- `saveIPACore` wired the way `saveIPA` calls it after `loadIPA`:
catalog loaded, `extensions` from discovery, selection from user toggles. -/
def saveWith (entries : List Entry) (keep : String → Bool) (abortAt : Option Nat) :
    SaveResult :=
  saveIPACore true (some entries) (discoverExtensions entries)
    (selectionOf entries keep) abortAt

/-- The discovery condition described by the claim (spec side, for
comparison with the code's filter): a directory entry whose path lies inside
the main application directory and the reserved `PlugIns` container, with a
segment ending in `.appex`. -/
def specExtensionQualifies (e : Entry) : Bool :=
  e.directory && specExtPathMatch e.filename

/-- Sample: a file entry whose content accessor is `null`. -/
def entNull : Entry := ⟨"Payload/App.app/data.bin", false, none⟩

/-- Sample: a further ordinary file entry. -/
def entReadme : Entry := ⟨"Payload/App.app/README", false, some (Except.ok [7])⟩

/-- Sample five-entry catalog (for the progress-total tie at `n = 5`). -/
def sample5 : List Entry := [entAppDir, entInfo, entExtDir, entExtFile, entReadme]

/-- Sample catalog whose only surviving file has a `null` accessor. -/
def nullIPA : List Entry := [entNull, entExtDir]

/-- Sample catalog mixing a `null`-accessor file with ordinary entries. -/
def mixedIPA : List Entry := [entAppDir, entNull, entInfo, entExtDir]

/-- Sample: a directory ending in `.appex/` outside any `PlugIns` container. -/
def entLooseExt : Entry := ⟨"Foo.appex/", true, none⟩

/-- Sample metadata dictionary resolving the icon base name `AppIcon`. -/
def iconMeta : PlistValue :=
  PlistValue.dict
    [("CFBundleIcons",
      PlistValue.dict
        [("CFBundlePrimaryIcon",
          PlistValue.dict [("CFBundleIconFiles", PlistValue.arr [PlistValue.str "AppIcon"])])])]

/-- Sample: the icon asset entry. -/
def entIcon : Entry := ⟨"Payload/App.app/AppIcon.png", false, some (Except.ok [9, 9])⟩

/-- Sample catalog with descriptor and icon entries. -/
def iconIPA : List Entry := [entInfo, entIcon]

/-- Sample plist parser returning `iconMeta` on any input. -/
def iconParse : List Nat → Except String PlistValue := fun _ => Except.ok iconMeta

/-- Sample plist parser returning an empty dictionary on any input. -/
def constParse : List Nat → Except String PlistValue := fun _ => Except.ok (PlistValue.dict [])

/-- Sample cgbi decoder that always fails. -/
def failDecode : List Nat → Except String (List Nat) := fun _ => Except.error "decode failed"

/-- Sample cgbi decoder that returns its input. -/
def idDecode : List Nat → Except String (List Nat) := fun b => Except.ok b

/-- Sample: a descriptor entry whose content accessor rejects. -/
def entInfoBad : Entry :=
  ⟨"Payload/App.app/Info.plist", false, some (Except.error "read failed")⟩

/-- Sample catalog whose descriptor entry's read rejects. -/
def badReadIPA : List Entry := [entInfoBad]

theorem runLoop_no_abort (prefixes : List String) :
    ∀ (entries : List Entry) (i prog : Nat),
      noErrData prefixes entries = true →
      runLoop prefixes none entries i prog =
        ⟨writtenOf prefixes entries, prog + entries.length,
          List.range' (prog + 1) entries.length, statusOf prefixes entries,
          LoopExit.completed⟩ := by
  intro entries
  induction entries with
  | nil =>
    intro i prog _
    simp [runLoop, writtenOf, statusOf]
  | cons e rest ih =>
    intro i prog h
    rw [noErrData, List.all_cons, Bool.and_eq_true] at h
    obtain ⟨he, hrest⟩ := h
    rw [runLoop]
    simp only [abortedBy, if_false]
    by_cases hs : skipEntry prefixes e = true
    · rw [if_pos hs, ih (i + 1) (prog + 1) hrest]
      simp [writtenOf, statusOf, List.filter_cons, writesEntry, hs, List.range'_succ]
      omega
    · rw [if_neg hs]
      rw [Bool.not_eq_true] at hs
      by_cases hd : e.directory = true
      · rw [if_pos hd, ih (i + 1) (prog + 1) hrest]
        simp [writtenOf, statusOf, List.filter_cons, writesEntry, hs, hd, toOut,
          List.range'_succ]
        omega
      · rw [if_neg hd]
        rw [Bool.not_eq_true] at hd
        cases hg : e.getData with
        | none =>
          rw [ih (i + 1) (prog + 1) hrest]
          simp [writtenOf, statusOf, List.filter_cons, writesEntry, hs, hd, hasOkData, hg,
            List.range'_succ]
          omega
        | some acc =>
          cases acc with
          | error msg =>
            exfalso
            rw [hs, hd, hasErrData, hg] at he
            simp at he
          | ok b =>
            rw [ih (i + 1) (prog + 1) hrest]
            simp [writtenOf, statusOf, List.filter_cons, writesEntry, hs, hd, hasOkData, hg,
              toOut, List.range'_succ]
            omega

theorem runLoop_abort (prefixes : List String) :
    ∀ (entries : List Entry) (j i prog : Nat),
      noErrData prefixes (entries.take j) = true →
      runLoop prefixes (some (i + j)) entries i prog =
        ⟨writtenOf prefixes (entries.take j),
          prog + min j entries.length,
          List.range' (prog + 1) (min j entries.length),
          statusOf prefixes (entries.take j),
          if entries.length ≤ j then LoopExit.completed else LoopExit.abortedExit⟩ := by
  intro entries
  induction entries with
  | nil =>
    intro j i prog _
    simp [runLoop, writtenOf, statusOf]
  | cons e rest ih =>
    intro j i prog h
    cases j with
    | zero =>
      rw [runLoop]
      have hab : abortedBy (some (i + 0)) i = true := by simp [abortedBy]
      rw [if_pos hab]
      simp [writtenOf, statusOf]
    | succ j' =>
      rw [List.take_succ_cons, noErrData, List.all_cons, Bool.and_eq_true] at h
      obtain ⟨he, hrest⟩ := h
      rw [runLoop]
      have hab : ¬(abortedBy (some (i + (j' + 1))) i = true) := by
        simp [abortedBy]
      rw [if_neg hab]
      have hidx : i + (j' + 1) = (i + 1) + j' := by omega
      rw [hidx]
      by_cases hs : skipEntry prefixes e = true
      · rw [if_pos hs, ih j' (i + 1) (prog + 1) hrest]
        simp [writtenOf, statusOf, List.filter_cons, writesEntry, hs,
          Nat.succ_min_succ, List.range'_succ]
        omega
      · rw [if_neg hs]
        rw [Bool.not_eq_true] at hs
        by_cases hd : e.directory = true
        · rw [if_pos hd, ih j' (i + 1) (prog + 1) hrest]
          simp [writtenOf, statusOf, List.filter_cons, writesEntry, hs, hd, toOut,
            Nat.succ_min_succ, List.range'_succ]
          omega
        · rw [if_neg hd]
          rw [Bool.not_eq_true] at hd
          cases hg : e.getData with
          | none =>
            rw [ih j' (i + 1) (prog + 1) hrest]
            simp [writtenOf, statusOf, List.filter_cons, writesEntry, hs, hd, hasOkData,
              hg, Nat.succ_min_succ, List.range'_succ]
            omega
          | some acc =>
            cases acc with
            | error msg =>
              exfalso
              rw [hs, hd, hasErrData, hg] at he
              simp at he
            | ok b =>
              rw [ih j' (i + 1) (prog + 1) hrest]
              simp [writtenOf, statusOf, List.filter_cons, writesEntry, hs, hd, hasOkData,
                hg, toOut, Nat.succ_min_succ, List.range'_succ]
              omega

theorem runLoop_none_events (prefixes : List String) :
    ∀ (entries : List Entry) (i prog : Nat),
      ∃ m, m ≤ entries.length ∧
        (runLoop prefixes none entries i prog).events = List.range' (prog + 1) m ∧
        ((runLoop prefixes none entries i prog).exit = LoopExit.completed →
          m = entries.length) ∧
        (runLoop prefixes none entries i prog).exit ≠ LoopExit.abortedExit := by
  intro entries
  induction entries with
  | nil =>
    intro i prog
    exact ⟨0, by simp [runLoop]⟩
  | cons e rest ih =>
    intro i prog
    rw [runLoop]
    simp only [abortedBy, if_false]
    by_cases hs : skipEntry prefixes e = true
    · rw [if_pos hs]
      obtain ⟨m, hm, hev, hex, hab⟩ := ih (i + 1) (prog + 1)
      exact ⟨m + 1, by simpa using hm, by simp [hev, List.range'_succ],
        fun hc => by rw [hex hc]; simp, hab⟩
    · rw [if_neg hs]
      by_cases hd : e.directory = true
      · rw [if_pos hd]
        obtain ⟨m, hm, hev, hex, hab⟩ := ih (i + 1) (prog + 1)
        exact ⟨m + 1, by simpa using hm, by simp [hev, List.range'_succ],
          fun hc => by rw [hex hc]; simp, hab⟩
      · rw [if_neg hd]
        cases hg : e.getData with
        | none =>
          obtain ⟨m, hm, hev, hex, hab⟩ := ih (i + 1) (prog + 1)
          exact ⟨m + 1, by simpa using hm, by simp [hev, List.range'_succ],
            fun hc => by rw [hex hc]; simp, hab⟩
        | some acc =>
          cases acc with
          | error msg =>
            exact ⟨1, by simp [List.range'_succ]⟩
          | ok b =>
            obtain ⟨m, hm, hev, hex, hab⟩ := ih (i + 1) (prog + 1)
            exact ⟨m + 1, by simpa using hm, by simp [hev, List.range'_succ],
              fun hc => by rw [hex hc]; simp, hab⟩

theorem lookup_mapKeep (keep : String → Bool) :
    ∀ (l : List Entry) (s : String),
      s ∈ l.map (fun e => e.filename) →
      lookupSel (l.map (fun e => (e.filename, keep e.filename))) s = some (keep s) := by
  intro l
  induction l with
  | nil => intro s h; simp at h
  | cons a t ih =>
    intro s h
    rw [List.map_cons, lookupSel, List.find?_cons]
    by_cases ha : a.filename = s
    · subst ha
      simp
    · have ha' : (a.filename == s) = false := by
        simp [ha]
      rw [ha']
      have hs : s ∈ t.map (fun e => e.filename) := by
        rcases List.mem_cons.mp h with h1 | h1
        · exact absurd h1.symm ha
        · exact h1
      exact ih s hs

theorem extensionsToRemove_eq (entries : List Entry) (keep : String → Bool) :
    ((discoverExtensions entries).filter
        (fun ext => !((lookupSel (selectionOf entries keep) ext.filename).getD false))).map
      (fun ext => ext.filename) = removePrefs entries keep := by
  rw [removePrefs, selectionOf]
  congr 1
  apply List.filter_congr
  intro e he
  rw [lookup_mapKeep keep (discoverExtensions entries) e.filename
    (List.mem_map.mpr ⟨e, he, rfl⟩)]
  simp

theorem saveWith_success (entries : List Entry) (keep : String → Bool)
    (hAll : (selectionOf entries keep).all (fun p => p.2) = false)
    (hne : noErrData (removePrefs entries keep) entries = true) :
    saveWith entries keep none =
      ⟨SaveOutcome.ok,
        some (SaveOutput.rebuilt (writtenOf (removePrefs entries keep) entries)),
        writtenOf (removePrefs entries keep) entries, true, true,
        (0 :: List.range' 1 entries.length) ++ [roundMax entries.length],
        [roundMax entries.length],
        ["Filtering extensions", "Creating new IPA archive"] ++
          statusOf (removePrefs entries keep) entries ++
          ["Finalizing archive", "Saving archive", "Done!"]⟩ := by
  rw [saveWith]
  simp only [saveIPACore]
  rw [if_neg (by rw [hAll]; exact Bool.false_ne_true)]
  simp only [extensionsToRemove_eq]
  rw [runLoop_no_abort (removePrefs entries keep) entries 0 0 hne]
  simp [abortedBy]

theorem saveWith_abort (entries : List Entry) (keep : String → Bool) (k : Nat)
    (hAll : (selectionOf entries keep).all (fun p => p.2) = false)
    (hk : k ≤ entries.length)
    (hne : noErrData (removePrefs entries keep) (entries.take k) = true) :
    saveWith entries keep (some k) =
      ⟨SaveOutcome.abortedErr, none,
        writtenOf (removePrefs entries keep) (entries.take k), true, true,
        (0 :: List.range' 1 k) ++ [0], [roundMax entries.length, 0],
        ["Filtering extensions", "Creating new IPA archive"] ++
          statusOf (removePrefs entries keep) (entries.take k)⟩ := by
  rw [saveWith]
  simp only [saveIPACore]
  rw [if_neg (by rw [hAll]; exact Bool.false_ne_true)]
  simp only [extensionsToRemove_eq]
  have hrl := runLoop_abort (removePrefs entries keep) entries k 0 0 hne
  rw [Nat.zero_add] at hrl
  rw [hrl, Nat.min_eq_left hk]
  by_cases hlen : entries.length ≤ k
  · rw [if_pos hlen]
    have hkl : k = entries.length := Nat.le_antisymm hk hlen
    have hab : abortedBy (some k) entries.length = true := by
      simp [abortedBy, hk]
    simp [hab]
  · rw [if_neg hlen]

theorem chain'_le_cons_range' : ∀ (m s : Nat),
    List.Chain' (· ≤ ·) (s :: List.range' (s + 1) m) := by
  intro m
  induction m with
  | zero => intro s; simp
  | succ m ih =>
    intro s
    rw [List.range'_succ, List.chain'_cons]
    exact ⟨Nat.le_succ s, ih (s + 1)⟩

theorem getLast?_cons_range' : ∀ (m s : Nat),
    (s :: List.range' (s + 1) m).getLast? = some (s + m) := by
  intro m
  induction m with
  | zero => intro s; simp
  | succ m ih =>
    intro s
    rw [List.range'_succ, List.getLast?_cons_cons, ih (s + 1)]
    congr 1
    omega

theorem getLast?_append_single {α : Type} (l : List α) (a : α) :
    (l ++ [a]).getLast? = some a := by
  induction l with
  | nil => rfl
  | cons b t ih =>
    cases t with
    | nil => rfl
    | cons c t' =>
      rw [List.cons_append, List.cons_append, List.getLast?_cons_cons, ← List.cons_append]
      exact ih

theorem length_le_roundMax (n : Nat) : n ≤ roundMax n := by
  rw [roundMax, Nat.le_div_iff_mul_le (by omega : 0 < 10)]
  omega

theorem chain'_le_events (m M : Nat) (h : m ≤ M) :
    List.Chain' (· ≤ ·) ((0 :: List.range' 1 m) ++ [M]) := by
  rw [List.chain'_append]
  refine ⟨chain'_le_cons_range' m 0, List.chain'_singleton M, ?_⟩
  intro x hx y hy
  rw [getLast?_cons_range' m 0] at hx
  simp at hx hy
  omega

theorem hasOkData_not_err (e : Entry) (h : hasOkData e = true) : hasErrData e = false := by
  cases hg : e.getData with
  | none => simp [hasErrData, hg]
  | some acc =>
    cases acc with
    | ok b => simp [hasErrData, hg]
    | error msg => simp [hasOkData, hg] at h

theorem allOk_noErrData (prefixes : List String) (entries : List Entry)
    (h : entries.all
        (fun e => skipEntry prefixes e || e.directory || hasOkData e) = true) :
    noErrData prefixes entries = true := by
  rw [noErrData, List.all_eq_true]
  rw [List.all_eq_true] at h
  intro e he
  have h1 := h e he
  cases hs : skipEntry prefixes e with
  | true => simp [hs]
  | false =>
    cases hd : e.directory with
    | true => simp [hs, hd]
    | false =>
      rw [hs, hd] at h1
      simp only [Bool.false_or] at h1
      simp [hs, hd, hasOkData_not_err e h1]

theorem allOk_filter_eq (prefixes : List String) (entries : List Entry)
    (h : entries.all
        (fun e => skipEntry prefixes e || e.directory || hasOkData e) = true) :
    entries.filter (writesEntry prefixes) =
      entries.filter (fun e => !skipEntry prefixes e) := by
  apply List.filter_congr
  intro e he
  have h1 := (List.all_eq_true.mp h) e he
  cases hs : skipEntry prefixes e with
  | true => simp [writesEntry, hs]
  | false =>
    rw [hs] at h1
    simp only [Bool.false_or] at h1
    simp [writesEntry, hs, h1]

/-- C1 (amended): for every catalog and every selection mapping at least one
discovered sub-component to `false`, provided every surviving file entry has
a succeeding content accessor, the rebuilt archive is exactly the original
entry list with every entry whose path starts with a removed `directoryPath`
filtered out, each surviving entry keeping its path (`toOut` preserves
`filename`), its byte content (`toOut` carries the accessor's bytes) and its
relative order (the output is a `filter`-`map` of the original list). -/
theorem rebuild_removes_selected_subtrees (entries : List Entry) (keep : String → Bool)
    (hAll : (selectionOf entries keep).all (fun p => p.2) = false)
    (hok : entries.all
        (fun e =>
          skipEntry (removePrefs entries keep) e || e.directory || hasOkData e) = true) :
    (saveWith entries keep none).output =
      some (SaveOutput.rebuilt
        ((entries.filter (fun e => !skipEntry (removePrefs entries keep) e)).map toOut)) := by
  rw [saveWith_success entries keep hAll (allOk_noErrData _ _ hok)]
  rw [writtenOf, allOk_filter_eq _ _ hok]

theorem rebuild_removes_selected_subtrees_witness :
    (saveWith sampleIPA keepNone none).output =
      some (SaveOutput.rebuilt
        ((sampleIPA.filter (fun e => !skipEntry (removePrefs sampleIPA keepNone) e)).map
          toOut)) :=
  rebuild_removes_selected_subtrees sampleIPA keepNone (by decide) (by decide)

/-- C1 (counterexample): on a catalog whose only surviving file has a `null`
content accessor, the rebuilt archive is empty even though the original
entry set minus the removed subtree is non-empty, so the claimed equality of
entry sets fails as stated. -/
theorem rebuild_removes_selected_subtrees_counterexample :
    (saveWith nullIPA keepNone none).output = some (SaveOutput.rebuilt []) ∧
      nullIPA.filter (fun e => !skipEntry (removePrefs nullIPA keepNone) e) = [entNull] := by
  decide

/-- C2 (confirmed): whenever every selection value is `true`, `_saveIPA`
creates no archive writer, saves the original file bytes unchanged, and its
only progress update past the initial reset is `1` of `1` with status
`"Done!"`. -/
theorem noop_rebuild_identity (entries : List Entry) (extensions : List Entry)
    (sel : List (String × Bool)) (hAll : sel.all (fun p => p.2) = true) :
    saveIPACore true (some entries) extensions sel none =
      ⟨SaveOutcome.ok, some SaveOutput.original, [], false, false, [0, 1], [1], ["Done!"]⟩ := by
  simp only [saveIPACore]
  rw [if_pos hAll, if_neg (by simp)]

theorem noop_rebuild_identity_witness :
    saveIPACore true (some sampleIPA) (discoverExtensions sampleIPA)
        (selectionOf sampleIPA (fun _ => true)) none =
      ⟨SaveOutcome.ok, some SaveOutput.original, [], false, false, [0, 1], [1], ["Done!"]⟩ :=
  noop_rebuild_identity sampleIPA (discoverExtensions sampleIPA)
    (selectionOf sampleIPA (fun _ => true)) (by decide)

/-- C3 (confirmed): in a rebuild that reaches the entry loop, if the abort
listener has run by check point `k` (with `k = 0` meaning before the loop
starts), the invocation rejects with `Aborted`, hands no output to
`saveBlob`, closes the partially written writer, and the entries written are
exactly those produced from the first `k` catalog entries. -/
theorem abort_cancels_rebuild (entries : List Entry) (keep : String → Bool) (k : Nat)
    (hAll : (selectionOf entries keep).all (fun p => p.2) = false)
    (hk : k ≤ entries.length)
    (hne : noErrData (removePrefs entries keep) (entries.take k) = true) :
    (saveWith entries keep (some k)).outcome = SaveOutcome.abortedErr ∧
      (saveWith entries keep (some k)).output = none ∧
      (saveWith entries keep (some k)).writerClosed = true ∧
      (saveWith entries keep (some k)).written =
        writtenOf (removePrefs entries keep) (entries.take k) := by
  rw [saveWith_abort entries keep k hAll hk hne]
  exact ⟨rfl, rfl, rfl, rfl⟩

theorem abort_cancels_rebuild_witness :
    (saveWith sampleIPA keepNone (some 1)).outcome = SaveOutcome.abortedErr ∧
      (saveWith sampleIPA keepNone (some 1)).output = none ∧
      (saveWith sampleIPA keepNone (some 1)).writerClosed = true ∧
      (saveWith sampleIPA keepNone (some 1)).written =
        writtenOf (removePrefs sampleIPA keepNone) (sampleIPA.take 1) :=
  abort_cancels_rebuild sampleIPA keepNone 1 (by decide) (by decide) (by decide)

/-- C4 (amended): a directory entry is discovered as a sub-component exactly
when its path ends with the `.appex/` suffix (case-sensitive); the
surrounding structure (main app directory, `PlugIns` container) is not
checked by the discovery filter. -/
theorem discovery_iff_appex_suffix (entries : List Entry) (e : Entry) :
    e ∈ discoverExtensions entries ↔
      e ∈ entries ∧ e.directory = true ∧ jsEndsWith e.filename ".appex/" = true := by
  rw [discoverExtensions, List.mem_filter, Bool.and_eq_true]

/-- C4 (counterexample): the directory entry `Foo.appex/` sits outside any
`Payload/*.app/PlugIns/` container, yet the code discovers it, so discovery
is not restricted to the claimed path pattern. -/
theorem discovery_iff_appex_suffix_counterexample :
    discoverExtensions [entLooseExt] = [entLooseExt] ∧
      specExtensionQualifies entLooseExt = false := by
  decide

/-- C5 (amended): when no entry matches the metadata path pattern, or the
matched entry has no content accessor, or its bytes fail to parse,
`getMetadata` resolves to "no metadata" without failing (a rejection of the
matched entry's `getData` itself, by contrast, propagates — see the
counterexample). -/
theorem metadata_soft_failures_yield_none (entries : List Entry)
    (parse : List Nat → Except String PlistValue)
    (h : entries.find? (fun e => metadataTest e.filename) = none ∨
      (∃ e, entries.find? (fun e => metadataTest e.filename) = some e ∧
        e.getData = none) ∨
      (∃ e bytes msg, entries.find? (fun e => metadataTest e.filename) = some e ∧
        e.getData = some (Except.ok bytes) ∧ parse bytes = Except.error msg)) :
    getMetadata (some entries) parse = Except.ok none := by
  rcases h with h | ⟨e, hf, hg⟩ | ⟨e, bytes, msg, hf, hg, hp⟩
  · simp only [getMetadata, h]
  · simp only [getMetadata, hf, hg]
  · simp only [getMetadata, hf, hg, hp]

theorem metadata_soft_failures_yield_none_witness :
    getMetadata (some ([] : List Entry)) constParse = Except.ok none :=
  metadata_soft_failures_yield_none [] constParse (Or.inl rfl)

/-- C5 (counterexample): on a catalog whose descriptor entry's `getData`
rejects, `getMetadata` propagates the rejection instead of resolving to "no
metadata", and the whole `loadIPA` aborts with it. -/
theorem metadata_read_failure_aborts_counterexample :
    getMetadata (some badReadIPA) constParse = Except.error "read failed" ∧
      loadIPA badReadIPA constParse idDecode = Except.error "read failed" := by
  exact ⟨rfl, rfl⟩

/-- C6 (amended): when the icon base name resolves, an entry matches the icon
path pattern and its bytes are read successfully, a failure of the
proprietary-pixel-format decoder propagates out of the icon phase (and hence
aborts the load) instead of yielding "no icon". -/
theorem icon_decode_failure_propagates (md : Option PlistValue) (entries : List Entry)
    (decode : List Nat → Except String (List Nat)) (name : String) (e : Entry)
    (bytes : List Nat) (msg : String)
    (h1 : iconName md = Except.ok (some name))
    (h2 : entries.find? (fun x => iconTest name x.filename) = some e)
    (h3 : e.getData = some (Except.ok bytes))
    (h4 : decode bytes = Except.error msg) :
    loadIcon md entries decode = Except.error msg := by
  simp only [loadIcon, h1, h2, h3, h4]

theorem icon_decode_failure_propagates_witness :
    loadIcon (some iconMeta) iconIPA failDecode = Except.error "decode failed" :=
  icon_decode_failure_propagates (some iconMeta) iconIPA failDecode "AppIcon" entIcon
    [9, 9] "decode failed" rfl rfl rfl rfl

/-- C6 (counterexample): on a catalog with a matching icon entry and a
decoder that fails, `loadIPA` aborts with the decoder's error, so decode
failure is not converted to "no icon". -/
theorem icon_decode_failure_aborts_counterexample :
    loadIPA iconIPA iconParse failDecode = Except.error "decode failed" := rfl

/-- C7 (amended): in every rebuild that takes the filtering path, the first
progress total emitted is `Math.round(entryCount * 1.1)`, i.e. half rounds
away from zero — not `floor(entryCount * 1.1)`. -/
theorem progress_total_is_rounded (entries : List Entry) (keep : String → Bool)
    (abortAt : Option Nat)
    (hAll : (selectionOf entries keep).all (fun p => p.2) = false) :
    (saveWith entries keep abortAt).progressMaxEvents.head? =
      some ((11 * entries.length + 5) / 10) := by
  rw [saveWith]
  simp only [saveIPACore]
  rw [if_neg (by rw [hAll]; exact Bool.false_ne_true)]
  cases hexit :
      (runLoop
          (((discoverExtensions entries).filter
              (fun ext =>
                !((lookupSel (selectionOf entries keep) ext.filename).getD false))).map
            (fun ext => ext.filename))
          abortAt entries 0 0).exit with
  | completed =>
    cases habort : abortedBy abortAt entries.length with
    | true => simp [habort, roundMax]
    | false => simp [habort, roundMax]
  | abortedExit => simp [roundMax]
  | readErr => simp [roundMax]

theorem progress_total_is_rounded_witness :
    (saveWith sample5 keepNone none).progressMaxEvents.head? =
      some ((11 * sample5.length + 5) / 10) :=
  progress_total_is_rounded sample5 keepNone none (by decide)

/-- C7 (counterexample): on a five-entry catalog with one removed extension
the emitted total is `6 = round(5.5)`, while `floor(5 * 1.1) = 5`, so the
total is not `floor(entryCount * 1.1)` as claimed. -/
theorem progress_total_counterexample :
    (saveWith sample5 keepNone none).progressMaxEvents = [6] ∧
      (11 * sample5.length) / 10 = 5 ∧ (6 : Nat) ≠ 5 := by
  decide

/-- C8 (amended): across a single rebuild invocation in which the
cancellation signal never fires, the reported progress is non-decreasing,
and on successful completion the last reported value equals the originally
computed total; an aborted invocation instead resets progress to `0` (see
the counterexample). -/
theorem progress_monotone_without_abort (filesLoaded : Bool) (ipa? : Option (List Entry))
    (extensions : List Entry) (sel : List (String × Bool)) :
    List.Chain' (· ≤ ·) (saveIPACore filesLoaded ipa? extensions sel none).progressEvents ∧
      ((saveIPACore filesLoaded ipa? extensions sel none).outcome = SaveOutcome.ok →
        (saveIPACore filesLoaded ipa? extensions sel none).progressEvents.getLast? =
          (saveIPACore filesLoaded ipa? extensions sel none).progressMaxEvents.head?) := by
  cases filesLoaded with
  | false =>
    constructor
    · simp [saveIPACore]
    · intro h
      simp [saveIPACore] at h
  | true =>
    cases ipa? with
    | none =>
      constructor
      · simp [saveIPACore]
      · intro h
        simp [saveIPACore] at h
    | some entries =>
      by_cases hall : sel.all (fun p => p.2) = true
      · have hre : saveIPACore true (some entries) extensions sel none =
            ⟨SaveOutcome.ok, some SaveOutput.original, [], false, false, [0, 1], [1],
              ["Done!"]⟩ := by
          simp only [saveIPACore]
          rw [if_pos hall, if_neg (by simp)]
        rw [hre]
        exact ⟨by simp, fun _ => rfl⟩
      · simp only [saveIPACore]
        rw [if_neg hall]
        obtain ⟨m, hm, hev, hex, hab⟩ :=
          runLoop_none_events
            ((extensions.filter
                (fun ext => !((lookupSel sel ext.filename).getD false))).map
              (fun ext => ext.filename))
            entries 0 0
        cases hexit :
            (runLoop
                ((extensions.filter
                    (fun ext => !((lookupSel sel ext.filename).getD false))).map
                  (fun ext => ext.filename))
                none entries 0 0).exit with
        | completed =>
          have habort : abortedBy none entries.length = false := rfl
          simp only [habort, Bool.false_eq_true, if_false]
          constructor
          · simp only [hev, hex hexit]
            simpa using
              chain'_le_events entries.length (roundMax entries.length)
                (length_le_roundMax entries.length)
          · intro _
            simp only [hev, hex hexit]
            rw [show (0 :: List.range' (0 + 1) entries.length) ++ [roundMax entries.length] =
                (0 :: List.range' (0 + 1) entries.length) ++ [roundMax entries.length] from
              rfl]
            rw [getLast?_append_single]
            rfl
        | abortedExit => exact absurd hexit hab
        | readErr =>
          constructor
          · simp only [hev]
            simpa using chain'_le_cons_range' m 0
          · intro h
            simp at h

theorem progress_monotone_without_abort_witness :
    List.Chain' (· ≤ ·)
        (saveIPACore true (some sampleIPA) (discoverExtensions sampleIPA)
            (selectionOf sampleIPA keepNone) none).progressEvents ∧
      ((saveIPACore true (some sampleIPA) (discoverExtensions sampleIPA)
              (selectionOf sampleIPA keepNone) none).outcome = SaveOutcome.ok →
        (saveIPACore true (some sampleIPA) (discoverExtensions sampleIPA)
              (selectionOf sampleIPA keepNone) none).progressEvents.getLast? =
          (saveIPACore true (some sampleIPA) (discoverExtensions sampleIPA)
              (selectionOf sampleIPA keepNone) none).progressMaxEvents.head?) :=
  progress_monotone_without_abort true (some sampleIPA) (discoverExtensions sampleIPA)
    (selectionOf sampleIPA keepNone)

/-- C8 (counterexample): in an invocation aborted after the first entry, the
abort listener resets `progress` to `0` after it had reached `1`, so the
reported progress of that single rebuild invocation is not non-decreasing. -/
theorem progress_decreases_on_abort_counterexample :
    (saveWith sampleIPA keepNone (some 1)).progressEvents = [0, 1, 0] ∧
      ¬ List.Chain' (· ≤ ·) ([0, 1, 0] : List Nat) := by
  constructor
  · decide
  · intro h
    rw [List.chain'_cons, List.chain'_cons] at h
    obtain ⟨-, h2, -⟩ := h
    omega

/-- C9 (confirmed): invoking `saveIPA` while a previous save attempt is still
in flight (its `saving` flag is set) returns immediately with the state
unchanged and no job started. -/
theorem second_save_is_noop (s : UIState) (h : s.saving = true) :
    saveIPAGuard s = (s, false) := by
  rw [saveIPAGuard, if_pos]
  rw [h, Bool.or_true]

theorem second_save_is_noop_witness :
    saveIPAGuard ⟨true, true⟩ = (⟨true, true⟩, false) :=
  second_save_is_noop ⟨true, true⟩ rfl

/-- C10 (confirmed): in a filtering rebuild with no abort and no rejecting
accessors, the invocation succeeds and the output consists exactly of the
surviving entries that are directories or have a succeeding accessor — a
surviving file entry whose accessor is `null` is silently omitted (it fails
`writesEntry`) while every other entry is still processed and written. -/
theorem null_accessor_file_omitted (entries : List Entry) (keep : String → Bool)
    (hAll : (selectionOf entries keep).all (fun p => p.2) = false)
    (hne : noErrData (removePrefs entries keep) entries = true) :
    (saveWith entries keep none).outcome = SaveOutcome.ok ∧
      (saveWith entries keep none).output =
        some (SaveOutput.rebuilt
          ((entries.filter (writesEntry (removePrefs entries keep))).map toOut)) := by
  rw [saveWith_success entries keep hAll hne]
  exact ⟨rfl, rfl⟩

theorem null_accessor_file_omitted_witness :
    (saveWith mixedIPA keepNone none).outcome = SaveOutcome.ok ∧
      (saveWith mixedIPA keepNone none).output =
        some (SaveOutput.rebuilt
          ((mixedIPA.filter (writesEntry (removePrefs mixedIPA keepNone))).map toOut)) :=
  null_accessor_file_omitted mixedIPA keepNone (by decide) (by decide)
